import Mathlib

/-!
Verification of the Smart-Task-Analyzer scoring engine (src/tasks/scoring.py).

Shallow embedding conventions:
* Calendar dates are represented by `Int` day numbers; `date₁ - date₂` in days
  is integer subtraction, matching `(due - today).days`.
* Python floats are modelled as exact rationals (`Rat`); the float literal
  `0.2` is the rational `1/5`, `round(v, n)` is round-half-up to `n` decimal
  digits (`pyround`).
* Python dicts (insertion ordered) are association lists `List (key × value)`
  with first-match lookup; `d.setdefault(k, init)` / `d[k] = f(d.get(k, init))`
  is `dictUpsert`, which updates the first matching entry in place or appends
  a fresh entry at the end, exactly like CPython dict semantics.
* Python sets are `Finset Int`.
* Exceptions (`KeyError`, `ValueError` from conversions, `ValueError` for an
  unknown strategy) are `Except` errors.
* `date.today()` read inside `score_tasks` is modelled by an explicit `today`
  parameter holding the ambient current date; the Python function itself takes
  only `tasks_payload` and `strategy`.
-/

/-- `TaskData` dataclass from scoring.py. -/
structure TaskData where
  id : Int
  title : String
  due_date : Option Int
  estimated_hours : Rat
  importance : Int
  dependencies : List Int
deriving DecidableEq

/-- Raw `due_date` value of an input dict: absent key, empty string, a
date/datetime value (already a day number), or unparseable text that makes
`date.fromisoformat` raise `ValueError`. -/
inductive DueField where
  | absent
  | emptyStr
  | dateVal (d : Int)
  | malformed (s : String)
deriving DecidableEq

/-- Raw `estimated_hours` value: absent key (`KeyError`), a numeric value, or
text that makes `float(...)` raise `ValueError`. -/
inductive HoursField where
  | absent
  | val (q : Rat)
  | malformed (s : String)
deriving DecidableEq

/-- Raw `importance` value: absent key (`KeyError`), an integer value, or
text that makes `int(...)` raise `ValueError`. -/
inductive ImportanceField where
  | absent
  | val (n : Int)
  | malformed (s : String)
deriving DecidableEq

/-- One loosely-typed task dict of the input payload. -/
structure RawTask where
  id : Option Int
  title : Option String
  due_date : DueField
  estimated_hours : HoursField
  importance : ImportanceField
  dependencies : Option (List Int)
deriving DecidableEq

/-- Parse failures: `missingField f` models a `KeyError` on attribute `f`,
`typeConversion f` models a `ValueError` raised while converting `f`. -/
inductive ParseError where
  | missingField (field : String)
  | typeConversion (field : String)
deriving DecidableEq

def DEFAULT_STRATEGY : String := "smart_balance"

def STRATEGY_CHOICES : List String :=
  ["fastest_wins", "high_impact", "deadline_driven", "smart_balance"]

def MAX_URGENCY_DAYS : Int := 30

/-- `_coerce_date` from scoring.py. -/
def coerceDate : DueField → Except ParseError (Option Int)
  | DueField.absent => Except.ok none
  | DueField.emptyStr => Except.ok none
  | DueField.dateVal d => Except.ok (some d)
  | DueField.malformed _ => Except.error (ParseError.typeConversion "due_date")

/-- `float(raw["estimated_hours"])`: `KeyError` when the key is absent,
`ValueError` on a non-numeric value. -/
def coerceHours : HoursField → Except ParseError Rat
  | HoursField.absent => Except.error (ParseError.missingField "estimated_hours")
  | HoursField.val q => Except.ok q
  | HoursField.malformed _ => Except.error (ParseError.typeConversion "estimated_hours")

/-- `int(raw["importance"])`: `KeyError` when the key is absent,
`ValueError` on a non-numeric value. -/
def coerceImportance : ImportanceField → Except ParseError Int
  | ImportanceField.absent => Except.error (ParseError.missingField "importance")
  | ImportanceField.val n => Except.ok n
  | ImportanceField.malformed _ => Except.error (ParseError.typeConversion "importance")

/-- Body of the `parse_tasks` loop for one entry, evaluated in source order:
`_coerce_date` first, then the id default, then `raw["title"]`, then the
numeric coercions. `idx` is the 1-based position used when `id` is absent or
falsy (`raw.get("id") or idx`). -/
def parseOne (idx : Int) (raw : RawTask) : Except ParseError TaskData :=
  match coerceDate raw.due_date with
  | Except.error e => Except.error e
  | Except.ok due =>
    let task_id : Int :=
      match raw.id with
      | none => idx
      | some n => if n = 0 then idx else n
    match raw.title with
    | none => Except.error (ParseError.missingField "title")
    | some title =>
      match coerceHours raw.estimated_hours with
      | Except.error e => Except.error e
      | Except.ok hours =>
        match coerceImportance raw.importance with
        | Except.error e => Except.error e
        | Except.ok imp =>
          Except.ok
            { id := task_id, title := title, due_date := due,
              estimated_hours := hours, importance := imp,
              dependencies := raw.dependencies.getD [] }

/-- The `for idx, raw in enumerate(payload, start=1)` loop of `parse_tasks`:
the first exception aborts the whole batch. -/
def parseTasksGo (idx : Int) : List RawTask → Except ParseError (List TaskData)
  | [] => Except.ok []
  | raw :: rest =>
    match parseOne idx raw with
    | Except.error e => Except.error e
    | Except.ok t =>
      match parseTasksGo (idx + 1) rest with
      | Except.error e => Except.error e
      | Except.ok ts => Except.ok (t :: ts)

/-- `parse_tasks` from scoring.py. -/
def parse_tasks (payload : List RawTask) : Except ParseError (List TaskData) :=
  parseTasksGo 1 payload

/-- `compute_urgency` from scoring.py; `today` is the evaluation date
(defaulting to `date.today()` at the Python call site). -/
def compute_urgency (due : Option Int) (today : Int) : Rat × Option Int :=
  match due with
  | none => (1/10, none)
  | some d =>
    let days_left := d - today
    if days_left < 0 then (1, some days_left)
    else
      (max 0 (1 - ((min days_left MAX_URGENCY_DAYS : Int) : Rat) / (MAX_URGENCY_DAYS : Rat)),
       some days_left)

/-- `compute_importance` from scoring.py. -/
def compute_importance (value : Int) : Rat :=
  min (max ((value : Rat) / 10) 0) 1

/-- `compute_quick_win` from scoring.py. -/
def compute_quick_win (hours : Rat) : Rat :=
  let capped := min (max hours 0) 8
  1 - capped / 8

/-- First-match association-list lookup with default: `d.get(k, dflt)`. -/
def alistGetD (d : List (Int × α)) (k : Int) (dflt : α) : α :=
  match d.find? (fun p => p.1 = k) with
  | some p => p.2
  | none => dflt

/-- CPython dict write `d[k] = f(d.get(k, dflt))` (also `setdefault`-then-
mutate): update the first entry with key `k` in place, or append a fresh
entry at the end when the key is new. -/
def dictUpsert (d : List (Int × α)) (k : Int) (dflt : α) (f : α → α) : List (Int × α) :=
  match d with
  | [] => [(k, f dflt)]
  | (k₁, v) :: rest =>
    if k₁ = k then (k₁, f v) :: rest else (k₁, v) :: dictUpsert rest k dflt f

/-- `build_dependency_graph` from scoring.py: the two dict comprehensions
initialise every task id, then each dependency edge registers the referencing
task as a dependent (creating dangling keys as needed). -/
def build_dependency_graph (tasks : List TaskData) :
    List (Int × List Int) × List (Int × Int) :=
  let adjacency := tasks.foldl (fun d t => dictUpsert d t.id [] (fun _ => [])) []
  let counts := tasks.foldl (fun d t => dictUpsert d t.id 0 (fun _ => 0)) []
  tasks.foldl
    (fun st t =>
      t.dependencies.foldl
        (fun st dep =>
          (dictUpsert st.1 dep [] (fun l => l ++ [t.id]),
           dictUpsert st.2 dep 0 (fun c => c + 1)))
        st)
    (adjacency, counts)

/-- Mutable state of the `find_cycles` closure: the `visited`, `stack` and
`cycle_nodes` sets. -/
structure DfsState where
  visited : Finset Int
  stk : Finset Int
  cycles : Finset Int

/-- The recursive `dfs` helper of `find_cycles`, with explicit fuel (the
Python recursion depth is bounded by the number of distinct nodes, so the
fuel supplied by `find_cycles` never runs out). -/
def dfs (g : List (Int × List Int)) : Nat → Int → DfsState → DfsState
  | 0, _, st => st
  | Nat.succ fuel, node, st₀ =>
    let st₁ : DfsState := ⟨insert node st₀.visited, insert node st₀.stk, st₀.cycles⟩
    let st₂ :=
      (alistGetD g node []).foldl
        (fun st nb =>
          if nb ∉ st.visited then dfs g fuel nb st
          else if nb ∈ st.stk then ⟨st.visited, st.stk, st.cycles ∪ st.stk⟩
          else st)
        st₁
    ⟨st₂.visited, st₂.stk.erase node, st₂.cycles⟩

/-- Fuel bound: strictly more than the number of node names occurring in the
graph, hence more than the maximal recursion depth. -/
def dfsFuel (g : List (Int × List Int)) : Nat :=
  g.length + (g.map (fun p => p.2.length)).sum + 1

/-- `find_cycles` from scoring.py. -/
def find_cycles (g : List (Int × List Int)) : Finset Int :=
  (g.foldl
      (fun st p => if p.1 ∈ st.visited then st else dfs g (dfsFuel g) p.1 st)
      ⟨∅, ∅, ∅⟩).cycles

/-- Python `round(x, n)`: round half up to `n` decimal digits (the banker's
tie rule of CPython differs only on exact ties, which the claims do not
exercise; `round` here is Mathlib's round-half-up on `Rat`). -/
def pyround (x : Rat) (n : Nat) : Rat :=
  ((round (x * (10 : Rat) ^ n) : Int) : Rat) / (10 : Rat) ^ n

/-- The per-task `components` dict. -/
structure Components where
  urgency : Rat
  importance_norm : Rat
  quick_win : Rat
  dep_score : Rat
  num_dependents : Int
  days_left : Option Int
deriving DecidableEq

/-- `score_fastest` from scoring.py. -/
def score_fastest (c : Components) : Rat :=
  (6/10) * c.quick_win + (2/10) * c.importance_norm + (2/10) * c.urgency

/-- `score_high_impact` from scoring.py. -/
def score_high_impact (c : Components) : Rat :=
  (7/10) * c.importance_norm + (2/10) * c.urgency + (1/10) * c.dep_score

/-- `score_deadline` from scoring.py. -/
def score_deadline (c : Components) : Rat :=
  (7/10) * c.urgency + (2/10) * c.importance_norm + (1/10) * c.quick_win

/-- `score_smart` from scoring.py. -/
def score_smart (c : Components) : Rat :=
  (35/100) * c.urgency + (35/100) * c.importance_norm
    + (15/100) * c.quick_win + (15/100) * c.dep_score

/-- The `STRATEGY_FUNCTIONS` dict: `none` models a `KeyError` lookup miss,
which the `STRATEGY_CHOICES` guard in `score_tasks` makes unreachable. -/
def STRATEGY_FUNCTIONS (s : String) : Option (Components → Rat) :=
  if s = "fastest_wins" then some score_fastest
  else if s = "high_impact" then some score_high_impact
  else if s = "deadline_driven" then some score_deadline
  else if s = "smart_balance" then some score_smart
  else none

/-- `STRATEGY_FUNCTIONS[strategy](components)` behind the guard. -/
def strategyFun (s : String) (c : Components) : Rat :=
  match STRATEGY_FUNCTIONS s with
  | some f => f c
  | none => 0

/-- One scored-task dict of the output. `rank` is 0 until the post-sort
rank-assignment loop sets it. -/
structure ScoredTask where
  id : Int
  title : String
  due_date : Option Int
  estimated_hours : Rat
  importance : Int
  dependencies : List Int
  score : Rat
  explanation : String
  cycle_issue : Bool
  components : Components
  rank : Nat
deriving DecidableEq

/-- `build_explanation` from scoring.py. Numbers are rendered with
`toString`; the Python `:g` float format is abstracted by the `Rat`
rendering, which no claim inspects. -/
def build_explanation (task : TaskData) (c : Components) (cycle_issue : Bool) : String :=
  let deadlineClause :=
    match task.due_date with
    | none => "No deadline (low urgency)"
    | some _ =>
      let due_text :=
        match c.days_left with
        | none => "no due data"
        | some dl =>
          if dl < 0 then "overdue by " ++ toString (-dl) ++ " day(s)"
          else if dl = 0 then "due today"
          else "due in " ++ toString dl ++ " day(s)"
      let urgency_desc :=
        if c.urgency ≥ 8/10 then "Very urgent"
        else if c.urgency ≥ 5/10 then "Moderately urgent"
        else "Low urgency"
      urgency_desc ++ " (" ++ due_text ++ ")"
  let parts₁ := [deadlineClause, "Importance " ++ toString task.importance ++ "/10"]
  let parts₂ :=
    if c.quick_win ≥ 7/10 then
      parts₁ ++ ["Quick win (" ++ toString task.estimated_hours ++ "h)"]
    else if c.quick_win ≤ 3/10 then
      parts₁ ++ ["Higher effort (" ++ toString task.estimated_hours ++ "h)"]
    else parts₁
  let parts₃ :=
    if c.num_dependents > 0 then
      parts₂ ++ ["Blocks " ++ toString c.num_dependents ++ " other task(s)"]
    else parts₂
  let parts₄ := if cycle_issue then parts₃ ++ ["Part of dependency cycle"] else parts₃
  String.intercalate "; " parts₄

/-- The body of the per-task loop in `score_tasks`. -/
def scoreOne (strategy : String) (dependents : List (Int × Int)) (max_dep : Int)
    (cycle_nodes : Finset Int) (today : Int) (task : TaskData) : ScoredTask :=
  let ud := compute_urgency task.due_date today
  let importance_norm := compute_importance task.importance
  let quick_win := compute_quick_win task.estimated_hours
  let num_dependents := alistGetD dependents task.id 0
  let dep_score : Rat := if max_dep ≠ 0 then (num_dependents : Rat) / (max_dep : Rat) else 0
  let components : Components :=
    { urgency := pyround ud.1 4, importance_norm := pyround importance_norm 4,
      quick_win := pyround quick_win 4, dep_score := pyround dep_score 4,
      num_dependents := num_dependents, days_left := ud.2 }
  let base_score := strategyFun strategy components
  let cycle_issue : Bool := decide (task.id ∈ cycle_nodes)
  let base_score := if cycle_issue then base_score * (1/5) else base_score
  { id := task.id, title := task.title, due_date := task.due_date,
    estimated_hours := task.estimated_hours, importance := task.importance,
    dependencies := task.dependencies,
    score := pyround (base_score * 100) 2,
    explanation := build_explanation task components cycle_issue,
    cycle_issue := cycle_issue, components := components, rank := 0 }

/-- `max(values)` for a nonempty list (Python `max` raises on `[]`; the
caller guards, the `[]` branch is unreachable). -/
def listMax : List Int → Int
  | [] => 0
  | x :: xs => xs.foldl max x

/-- The pre-sort scored list produced by the loop of `score_tasks`. -/
def scoredList (parsed : List TaskData) (strategy : String) (today : Int) :
    List ScoredTask :=
  let gd := build_dependency_graph parsed
  let cycle_nodes := find_cycles gd.1
  let max_dep := if gd.2.isEmpty then 1 else listMax (gd.2.map (fun p => p.2))
  parsed.map (scoreOne strategy gd.2 max_dep cycle_nodes today)

/-- Insert into a descending-sorted list, after any equal-score entries:
the stable-descending order of Python `list.sort(key=score, reverse=True)`
(a stable sort is uniquely determined by the key order, so insertion sort is
extensionally the same function as Timsort here). -/
def insertDesc (x : ScoredTask) : List ScoredTask → List ScoredTask
  | [] => [x]
  | y :: ys => if y.score ≤ x.score then x :: y :: ys else y :: insertDesc x ys

/-- `scored_tasks.sort(key=lambda e: e["score"], reverse=True)`. -/
def sortDesc : List ScoredTask → List ScoredTask
  | [] => []
  | x :: xs => insertDesc x (sortDesc xs)

/-- `for idx, item in enumerate(scored_tasks, start=1): item["rank"] = idx`. -/
def assignRanks (i : Nat) : List ScoredTask → List ScoredTask
  | [] => []
  | x :: xs => { x with rank := i } :: assignRanks (i + 1) xs

/-- The summary dict of `build_summary`. -/
structure Summary where
  strategy : String
  total_tasks : Nat
  average_score : Rat
  top_titles : List String
deriving DecidableEq

/-- `build_summary` from scoring.py. -/
def build_summary (tasks : List ScoredTask) (strategy : String) : Summary :=
  { strategy := strategy,
    total_tasks := tasks.length,
    average_score :=
      if tasks.isEmpty then 0
      else pyround ((tasks.map (fun t => t.score)).sum / (tasks.length : Rat)) 2,
    top_titles := (tasks.take 3).map (fun t => t.title) }

/-- The result dict of `score_tasks`. -/
structure AnalysisResult where
  strategy : String
  tasks : List ScoredTask
  summary : Summary
deriving DecidableEq

/-- Failures of `score_tasks`: the explicit `ValueError` for an unknown
strategy, or a propagated parse exception. -/
inductive ScoreError where
  | invalidStrategy (s : String)
  | parse (e : ParseError)
deriving DecidableEq

/-- `score_tasks` from scoring.py. The `today` parameter is the ambient
value of `date.today()` read once before the loop; the Python signature is
`score_tasks(tasks_payload, strategy=DEFAULT_STRATEGY)` with no
evaluation-date argument. -/
def score_tasks (payload : List RawTask) (strategy : String) (today : Int) :
    Except ScoreError AnalysisResult :=
  if strategy ∉ STRATEGY_CHOICES then
    Except.error (ScoreError.invalidStrategy strategy)
  else
    match parse_tasks payload with
    | Except.error e => Except.error (ScoreError.parse e)
    | Except.ok parsed =>
      let ranked := assignRanks 1 (sortDesc (scoredList parsed strategy today))
      Except.ok
        { strategy := strategy, tasks := ranked,
          summary := build_summary ranked strategy }

/-- One dependency-enablement edge of the adjacency map: `b` is listed among
the dependents of `a`. -/
def edgeOf (g : List (Int × List Int)) (a b : Int) : Prop :=
  b ∈ alistGetD g a []

/-- Reachability along dependency-enablement edges. -/
def Reach (g : List (Int × List Int)) : Int → Int → Prop :=
  Relation.ReflTransGen (edgeOf g)

/-- The spec's notion of a cycle participant: reachable from itself via one
or more dependency-enablement edges. -/
def onCycle (g : List (Int × List Int)) (v : Int) : Prop :=
  ∃ w, edgeOf g v w ∧ Reach g w v

/-! ## Rounding lemmas -/

lemma pow10_pos (n : Nat) : (0 : Rat) < (10 : Rat) ^ n := by positivity

lemma abs_pyround_sub (x : Rat) (n : Nat) :
    |pyround x n - x| ≤ 1 / (2 * (10 : Rat) ^ n) := by
  have hp : (0 : Rat) < (10 : Rat) ^ n := pow10_pos n
  have h := abs_sub_round (x * (10 : Rat) ^ n)
  have hx : pyround x n - x =
      -((x * (10 : Rat) ^ n - (round (x * (10 : Rat) ^ n) : Int)) / (10 : Rat) ^ n) := by
    unfold pyround
    field_simp
    ring
  rw [hx, abs_neg, abs_div, abs_of_pos hp, ← div_div]
  exact div_le_div_of_nonneg_right h hp.le

lemma pyround_nonneg {x : Rat} (n : Nat) (hx : 0 ≤ x) : 0 ≤ pyround x n := by
  have hp : (0 : Rat) < (10 : Rat) ^ n := pow10_pos n
  unfold pyround
  apply div_nonneg _ hp.le
  have : (0 : Int) ≤ round (x * (10 : Rat) ^ n) := by
    rw [round_eq]
    apply Int.le_floor.mpr
    push_cast
    nlinarith
  exact_mod_cast this

lemma pyround_le_one {x : Rat} (n : Nat) (hx : x ≤ 1) : pyround x n ≤ 1 := by
  have hp : (0 : Rat) < (10 : Rat) ^ n := pow10_pos n
  unfold pyround
  rw [div_le_one hp]
  have : round (x * (10 : Rat) ^ n) ≤ (10 : Int) ^ n := by
    rw [round_eq]
    apply Int.floor_le_iff.mpr
    push_cast
    nlinarith
  calc ((round (x * (10 : Rat) ^ n) : Int) : Rat) ≤ (((10 : Int) ^ n : Int) : Rat) := by
        exact_mod_cast this
    _ = (10 : Rat) ^ n := by push_cast; ring

/-! ## Sorting, rank and permutation lemmas -/

lemma insertDesc_perm (x : ScoredTask) (l : List ScoredTask) :
    List.Perm (insertDesc x l) (x :: l) := by
  induction l with
  | nil => exact List.Perm.refl _
  | cons y ys ih =>
    unfold insertDesc
    by_cases h : y.score ≤ x.score
    · simp [h]
    · simp only [h, if_neg, if_false]
      exact List.Perm.trans (List.Perm.cons y ih) (List.Perm.swap x y ys)

lemma sortDesc_perm (l : List ScoredTask) : List.Perm (sortDesc l) l := by
  induction l with
  | nil => exact List.Perm.refl _
  | cons x xs ih =>
    exact List.Perm.trans (insertDesc_perm x (sortDesc xs)) (List.Perm.cons x ih)

lemma mem_insertDesc {a x : ScoredTask} {l : List ScoredTask} :
    a ∈ insertDesc x l ↔ a = x ∨ a ∈ l := by
  rw [(insertDesc_perm x l).mem_iff]
  simp

lemma insertDesc_pairwise {x : ScoredTask} {l : List ScoredTask}
    (hl : l.Pairwise (fun a b => b.score ≤ a.score)) :
    (insertDesc x l).Pairwise (fun a b => b.score ≤ a.score) := by
  induction l with
  | nil => simp [insertDesc]
  | cons y ys ih =>
    rcases List.pairwise_cons.mp hl with ⟨hy, hys⟩
    unfold insertDesc
    by_cases h : y.score ≤ x.score
    · simp only [h, if_pos]
      refine List.pairwise_cons.mpr ⟨?_, hl⟩
      intro b hb
      rcases List.mem_cons.mp hb with hb | hb
      · subst hb; exact h
      · exact le_trans (hy b hb) h
    · simp only [h, if_neg, if_false]
      refine List.pairwise_cons.mpr ⟨?_, ih hys⟩
      intro b hb
      rcases mem_insertDesc.mp hb with hb | hb
      · subst hb; exact le_of_not_le h
      · exact hy b hb

lemma sortDesc_pairwise (l : List ScoredTask) :
    (sortDesc l).Pairwise (fun a b => b.score ≤ a.score) := by
  induction l with
  | nil => simp [sortDesc]
  | cons x xs ih => exact insertDesc_pairwise ih

lemma filter_insertDesc (v : Rat) (x : ScoredTask) (l : List ScoredTask) :
    (insertDesc x l).filter (fun e => e.score = v)
      = (x :: l).filter (fun e => e.score = v) := by
  induction l with
  | nil => rfl
  | cons y ys ih =>
    unfold insertDesc
    by_cases h : y.score ≤ x.score
    · simp [h]
    · simp only [h, if_neg, if_false]
      by_cases hx : x.score = v
      · have hy : ¬ (y.score = v) := by
          intro hyv
          exact h (by rw [hyv, hx])
        simp only [List.filter_cons, hx, hy]
        rw [ih]
        simp [List.filter_cons, hx, hy]
      · by_cases hy : y.score = v
        · simp only [List.filter_cons, hy, hx]
          rw [ih]
          simp [List.filter_cons, hx]
        · simp only [List.filter_cons, hy, hx]
          rw [ih]
          simp [List.filter_cons, hx]

lemma sortDesc_filter (v : Rat) (l : List ScoredTask) :
    (sortDesc l).filter (fun e => e.score = v) = l.filter (fun e => e.score = v) := by
  induction l with
  | nil => rfl
  | cons x xs ih =>
    unfold sortDesc
    rw [filter_insertDesc, List.filter_cons, List.filter_cons, ih]

lemma assignRanks_length (i : Nat) (l : List ScoredTask) :
    (assignRanks i l).length = l.length := by
  induction l generalizing i with
  | nil => rfl
  | cons x xs ih => simp [assignRanks, ih]

lemma assignRanks_map_rank (i : Nat) (l : List ScoredTask) :
    (assignRanks i l).map (fun t => t.rank) = List.range' i l.length := by
  induction l generalizing i with
  | nil => rfl
  | cons x xs ih => simp [assignRanks, List.range', ih]

/-- Erasing the rank field recovers the pre-assignment entry. -/
def stripRank (t : ScoredTask) : ScoredTask := { t with rank := 0 }

lemma assignRanks_map_stripRank (i : Nat) (l : List ScoredTask) :
    (assignRanks i l).map stripRank = l.map stripRank := by
  induction l generalizing i with
  | nil => rfl
  | cons x xs ih => simp [assignRanks, stripRank, ih]

lemma assignRanks_map_of (f : ScoredTask → β)
    (hf : ∀ t i, f { t with rank := i } = f t) (i : Nat) (l : List ScoredTask) :
    (assignRanks i l).map f = l.map f := by
  induction l generalizing i with
  | nil => rfl
  | cons x xs ih => simp [assignRanks, hf, ih]

lemma filter_map_of (f : α → α) (p : α → Bool) (hpf : ∀ a, p (f a) = p a)
    (l : List α) : (l.filter p).map f = (l.map f).filter p := by
  induction l with
  | nil => rfl
  | cons x xs ih =>
    simp only [List.filter_cons, List.map_cons, hpf]
    by_cases h : p x
    · simp [h, ih]
    · simp [h, ih]

/-! ## Shape of a successful `score_tasks` run -/

lemma score_tasks_ok {payload : List RawTask} {s : String} {d : Int}
    {r : AnalysisResult} (h : score_tasks payload s d = Except.ok r) :
    s ∈ STRATEGY_CHOICES ∧
      ∃ parsed, parse_tasks payload = Except.ok parsed ∧
        r = { strategy := s,
              tasks := assignRanks 1 (sortDesc (scoredList parsed s d)),
              summary := build_summary
                (assignRanks 1 (sortDesc (scoredList parsed s d))) s } := by
  unfold score_tasks at h
  by_cases hs : s ∈ STRATEGY_CHOICES
  · refine ⟨hs, ?_⟩
    simp only [hs, not_true_eq_false, if_false, if_neg, not_false_eq_true] at h
    cases hp : parse_tasks payload with
    | error e => rw [hp] at h; exact absurd h (by simp)
    | ok parsed =>
      rw [hp] at h
      refine ⟨parsed, rfl, ?_⟩
      simpa using h.symm
  · simp only [hs, not_false_eq_true, if_pos, if_true] at h
    exact absurd h (by simp)

/-! ## Dependent-count invariants -/

lemma mem_dictUpsert {d : List (Int × α)} {k : Int} {dflt : α} {f : α → α}
    {q : Int × α} (hq : q ∈ dictUpsert d k dflt f) :
    q ∈ d ∨ ∃ v, q = (k, f v) ∧ (v = dflt ∨ (k, v) ∈ d) := by
  induction d with
  | nil =>
    simp only [dictUpsert, List.mem_singleton] at hq
    exact Or.inr ⟨dflt, by simpa using hq, Or.inl rfl⟩
  | cons p rest ih =>
    obtain ⟨k₁, v⟩ := p
    unfold dictUpsert at hq
    by_cases hk : k₁ = k
    · simp only [hk, if_pos, if_true] at hq
      rcases List.mem_cons.mp hq with hq | hq
      · exact Or.inr ⟨v, by simpa [hk] using hq, Or.inr (by simp [hk])⟩
      · exact Or.inl (List.mem_cons_of_mem _ hq)
    · simp only [hk, if_neg, if_false, not_false_eq_true] at hq
      rcases List.mem_cons.mp hq with hq | hq
      · exact Or.inl (by simp [hq])
      · rcases ih hq with hq | ⟨v₁, hv₁, hv₂⟩
        · exact Or.inl (List.mem_cons_of_mem _ hq)
        · exact Or.inr ⟨v₁, hv₁, hv₂.imp id (List.mem_cons_of_mem _)⟩

lemma dictUpsert_val_pred {P : α → Prop} {d : List (Int × α)} {k : Int}
    {dflt : α} {f : α → α} (hd : ∀ q ∈ d, P q.2) (hdflt : P (f dflt))
    (hf : ∀ v, P v → P (f v)) : ∀ q ∈ dictUpsert d k dflt f, P q.2 := by
  intro q hq
  rcases mem_dictUpsert hq with hq | ⟨v, hv, hv₂⟩
  · exact hd q hq
  · subst hv
    rcases hv₂ with hv₂ | hv₂
    · subst hv₂; exact hdflt
    · exact hf v (hd (k, v) hv₂)

lemma dictUpsert_key_mem (d : List (Int × α)) (k : Int) (dflt : α) (f : α → α) :
    k ∈ (dictUpsert d k dflt f).map (fun p => p.1) := by
  induction d with
  | nil => simp [dictUpsert]
  | cons p rest ih =>
    obtain ⟨k₁, v⟩ := p
    unfold dictUpsert
    by_cases hk : k₁ = k
    · simp [hk]
    · simp only [hk, if_neg, if_false, not_false_eq_true, List.map_cons, List.mem_cons]
      exact Or.inr ih

lemma dictUpsert_key_preserved {d : List (Int × α)} {a : Int} (k : Int)
    (dflt : α) (f : α → α) (ha : a ∈ d.map (fun p => p.1)) :
    a ∈ (dictUpsert d k dflt f).map (fun p => p.1) := by
  induction d with
  | nil => simp at ha
  | cons p rest ih =>
    obtain ⟨k₁, v⟩ := p
    unfold dictUpsert
    by_cases hk : k₁ = k
    · simpa [hk] using ha
    · simp only [List.map_cons, List.mem_cons] at ha
      rcases ha with ha | ha
      · simp [hk, ha]
      · simp only [hk, if_neg, if_false, not_false_eq_true, List.map_cons, List.mem_cons]
        exact Or.inr (ih ha)

lemma le_foldl_max (a : Int) (l : List Int) :
    a ≤ l.foldl max a ∧ ∀ x ∈ l, x ≤ l.foldl max a := by
  induction l generalizing a with
  | nil => simp
  | cons y ys ih =>
    refine ⟨le_trans (le_max_left a y) (ih (max a y)).1, ?_⟩
    intro x hx
    rcases List.mem_cons.mp hx with hx | hx
    · subst hx
      exact le_trans (le_max_right a x) (ih (max a x)).1
    · exact (ih (max a y)).2 x hx

lemma le_listMax {l : List Int} {x : Int} (hx : x ∈ l) : x ≤ listMax l := by
  cases l with
  | nil => simp at hx
  | cons y ys =>
    rcases List.mem_cons.mp hx with hx | hx
    · subst hx; exact (le_foldl_max x ys).1
    · exact (le_foldl_max y ys).2 x hx

/-- The dependent-count half of the graph-builder fold, in curried form
(proof artifact: the pairwise fold projects to this). -/
def countsFold (tasks : List TaskData) (c₀ : List (Int × Int)) : List (Int × Int) :=
  tasks.foldl
    (fun c t =>
      t.dependencies.foldl (fun c dep => dictUpsert c dep 0 (fun n => n + 1)) c)
    c₀

lemma bdg_snd_inner (deps : List Int) (tid : Int)
    (st : List (Int × List Int) × List (Int × Int)) :
    (deps.foldl
        (fun st dep =>
          (dictUpsert st.1 dep [] (fun l => l ++ [tid]),
           dictUpsert st.2 dep 0 (fun c => c + 1)))
        st).2
      = deps.foldl (fun c dep => dictUpsert c dep 0 (fun n => n + 1)) st.2 := by
  induction deps generalizing st with
  | nil => rfl
  | cons dep rest ih => simp only [List.foldl_cons, ih]

lemma bdg_pair_snd (tasks : List TaskData)
    (st : List (Int × List Int) × List (Int × Int)) :
    (tasks.foldl
        (fun st t =>
          t.dependencies.foldl
            (fun st dep =>
              (dictUpsert st.1 dep [] (fun l => l ++ [t.id]),
               dictUpsert st.2 dep 0 (fun c => c + 1)))
            st)
        st).2
      = countsFold tasks st.2 := by
  induction tasks generalizing st with
  | nil => rfl
  | cons t rest ih =>
    unfold countsFold
    simp only [List.foldl_cons]
    rw [ih, bdg_snd_inner]
    rfl

lemma bdg_snd (tasks : List TaskData) :
    (build_dependency_graph tasks).2
      = countsFold tasks (tasks.foldl (fun d t => dictUpsert d t.id 0 (fun _ => 0)) []) := by
  unfold build_dependency_graph
  exact bdg_pair_snd tasks _

lemma countsFold_pred (P : Int → Prop) (hP0 : P (0 + 1)) (hPs : ∀ v, P v → P (v + 1))
    (tasks : List TaskData) (c₀ : List (Int × Int)) (h₀ : ∀ q ∈ c₀, P q.2) :
    ∀ q ∈ countsFold tasks c₀, P q.2 := by
  unfold countsFold
  induction tasks generalizing c₀ with
  | nil => exact h₀
  | cons t rest ih =>
    simp only [List.foldl_cons]
    apply ih
    generalize hdeps : t.dependencies = deps
    clear hdeps
    induction deps generalizing c₀ with
    | nil => exact h₀
    | cons dep drest dih =>
      simp only [List.foldl_cons]
      apply dih
      exact dictUpsert_val_pred h₀ hP0 hPs

lemma initFold_nonneg (tasks : List TaskData) (acc : List (Int × Int))
    (hbase : ∀ q ∈ acc, 0 ≤ q.2) :
    ∀ q ∈ tasks.foldl (fun d t => dictUpsert d t.id 0 (fun _ => 0)) acc, 0 ≤ q.2 := by
  induction tasks generalizing acc with
  | nil => exact hbase
  | cons t rest ih =>
    simp only [List.foldl_cons]
    exact ih _ (dictUpsert_val_pred hbase (by norm_num) (fun v hv => by norm_num))

lemma counts_nonneg (tasks : List TaskData) :
    ∀ q ∈ (build_dependency_graph tasks).2, 0 ≤ q.2 := by
  rw [bdg_snd]
  exact countsFold_pred (fun v => 0 ≤ v) (by norm_num) (fun v hv => by omega) tasks _
    (initFold_nonneg tasks [] (by simp))

lemma countsFold_key_preserved {a : Int} (tasks : List TaskData)
    (c₀ : List (Int × Int)) (ha : a ∈ c₀.map (fun p => p.1)) :
    a ∈ (countsFold tasks c₀).map (fun p => p.1) := by
  unfold countsFold
  induction tasks generalizing c₀ with
  | nil => exact ha
  | cons t rest ih =>
    simp only [List.foldl_cons]
    apply ih
    generalize hdeps : t.dependencies = deps
    clear hdeps
    induction deps generalizing c₀ with
    | nil => exact ha
    | cons dep drest dih =>
      simp only [List.foldl_cons]
      apply dih
      exact dictUpsert_key_preserved dep 0 _ ha

lemma initFold_key_preserved {a : Int} (tasks : List TaskData)
    (acc : List (Int × Int)) (ha : a ∈ acc.map (fun p => p.1)) :
    a ∈ (tasks.foldl (fun d t => dictUpsert d t.id 0 (fun _ => 0)) acc).map
      (fun p => p.1) := by
  induction tasks generalizing acc with
  | nil => exact ha
  | cons t rest ih =>
    simp only [List.foldl_cons]
    exact ih _ (dictUpsert_key_preserved _ _ _ ha)

lemma initFold_key_mem {tasks : List TaskData} {t : TaskData} (ht : t ∈ tasks)
    (acc : List (Int × Int)) :
    t.id ∈ (tasks.foldl (fun d t => dictUpsert d t.id 0 (fun _ => 0)) acc).map
      (fun p => p.1) := by
  induction tasks generalizing acc with
  | nil => simp at ht
  | cons u rest ih =>
    simp only [List.foldl_cons]
    rcases List.mem_cons.mp ht with ht | ht
    · subst ht
      exact initFold_key_preserved rest _ (dictUpsert_key_mem acc t.id 0 (fun _ => 0))
    · exact ih ht _

lemma counts_key_mem {tasks : List TaskData} {t : TaskData} (ht : t ∈ tasks) :
    t.id ∈ ((build_dependency_graph tasks).2).map (fun p => p.1) := by
  rw [bdg_snd]
  exact countsFold_key_preserved tasks _ (initFold_key_mem ht [])

lemma alistGetD_mem_or {d : List (Int × α)} {k : Int} {dflt : α} :
    (∃ p ∈ d, p.1 = k ∧ alistGetD d k dflt = p.2) ∨
      (k ∉ d.map (fun p => p.1) ∧ alistGetD d k dflt = dflt) := by
  unfold alistGetD
  cases hf : d.find? (fun p => p.1 = k) with
  | some p =>
    left
    refine ⟨p, List.mem_of_find?_eq_some hf, ?_, rfl⟩
    have := List.find?_some hf
    simpa using this
  | none =>
    right
    refine ⟨?_, rfl⟩
    intro hk
    rcases List.mem_map.mp hk with ⟨p, hp, hpk⟩
    have := List.find?_eq_none.mp hf p hp
    simp [hpk] at this

lemma alistGetD_nonneg {d : List (Int × Int)} (hvals : ∀ q ∈ d, 0 ≤ q.2) (k : Int) :
    0 ≤ alistGetD d k 0 := by
  rcases @alistGetD_mem_or Int d k 0 with ⟨p, hp, _, hval⟩ | ⟨_, hval⟩
  · rw [hval]; exact hvals p hp
  · rw [hval]

lemma alistGetD_le_listMax {d : List (Int × Int)} (hvals : ∀ q ∈ d, 0 ≤ q.2)
    (hne : d ≠ []) (k : Int) :
    alistGetD d k 0 ≤ listMax (d.map (fun p => p.2)) := by
  rcases @alistGetD_mem_or Int d k 0 with ⟨p, hp, _, hval⟩ | ⟨_, hval⟩
  · rw [hval]
    exact le_listMax (List.mem_map_of_mem _ hp)
  · rw [hval]
    obtain ⟨q, hq⟩ := List.exists_mem_of_ne_nil d hne
    exact le_trans (hvals q hq) (le_listMax (List.mem_map_of_mem _ hq))

/-! ## Acyclic graphs produce an empty cycle set -/

lemma reach_edge_append {g : List (Int × List Int)} {a b c : Int}
    (hab : Reach g a b) (hbc : edgeOf g b c) : Reach g a c :=
  Relation.ReflTransGen.tail hab hbc


/-- The neighbor-loop body of `dfs`, named for proof reuse. -/
def dfsBody (g : List (Int × List Int)) (fuel : Nat) : DfsState → Int → DfsState :=
  fun st nb =>
    if nb ∉ st.visited then dfs g fuel nb st
    else if nb ∈ st.stk then ⟨st.visited, st.stk, st.cycles ∪ st.stk⟩
    else st

lemma dfs_succ (g : List (Int × List Int)) (fuel : Nat) (node : Int) (st : DfsState) :
    dfs g (fuel + 1) node st =
      ⟨((alistGetD g node []).foldl (dfsBody g fuel)
          ⟨insert node st.visited, insert node st.stk, st.cycles⟩).visited,
       ((alistGetD g node []).foldl (dfsBody g fuel)
          ⟨insert node st.visited, insert node st.stk, st.cycles⟩).stk.erase node,
       ((alistGetD g node []).foldl (dfsBody g fuel)
          ⟨insert node st.visited, insert node st.stk, st.cycles⟩).cycles⟩ := rfl

/-- On an acyclic graph, the neighbor loop of `dfs` keeps the recursion
stack fixed, only grows the visited set, and never adds cycle nodes. -/
lemma dfs_loop_acyclic (g : List (Int × List Int)) (hAcyc : ∀ v, ¬ onCycle g v)
    (fuel : Nat)
    (IH : ∀ node st, node ∉ st.visited → (∀ s ∈ st.stk, s ∈ st.visited) →
      (∀ s ∈ st.stk, Reach g s node) → st.cycles = ∅ →
      (dfs g fuel node st).stk = st.stk ∧
        (∀ a ∈ st.visited, a ∈ (dfs g fuel node st).visited) ∧
        (dfs g fuel node st).cycles = ∅)
    (node : Int) (S : Finset Int) (hSreach : ∀ s ∈ S, Reach g s node) :
    ∀ (l : List Int), (∀ nb ∈ l, edgeOf g node nb) →
      ∀ st₂ : DfsState, st₂.stk = S → (∀ s ∈ st₂.stk, s ∈ st₂.visited) →
        st₂.cycles = ∅ →
        (l.foldl (dfsBody g fuel) st₂).stk = S ∧
          (∀ a ∈ st₂.visited, a ∈ (l.foldl (dfsBody g fuel) st₂).visited) ∧
          (l.foldl (dfsBody g fuel) st₂).cycles = ∅ := by
  intro l
  induction l with
  | nil =>
    intro _ st₂ hstk _ hc
    exact ⟨hstk, fun a ha => ha, hc⟩
  | cons nb rest ihl =>
    intro hedges st₂ hstk hsub₂ hc₂
    have hedge : edgeOf g node nb := hedges nb (List.mem_cons_self nb rest)
    simp only [List.foldl_cons]
    by_cases hv : nb ∈ st₂.visited
    · have hbody : dfsBody g fuel st₂ nb = st₂ := by
        unfold dfsBody
        have hs : nb ∉ st₂.stk := by
          intro hs
          rw [hstk] at hs
          exact hAcyc node ⟨nb, hedge, hSreach nb hs⟩
        simp [hv, hs]
      rw [hbody]
      exact ihl (fun x hx => hedges x (List.mem_cons_of_mem nb hx)) st₂ hstk hsub₂ hc₂
    · have hbody : dfsBody g fuel st₂ nb = dfs g fuel nb st₂ := by
        unfold dfsBody
        simp [hv]
      rw [hbody]
      have hreach₂ : ∀ s ∈ st₂.stk, Reach g s nb := by
        intro s hsmem
        rw [hstk] at hsmem
        exact reach_edge_append (hSreach s hsmem) hedge
      obtain ⟨hstk₃, hvis₃, hcyc₃⟩ := IH nb st₂ hv hsub₂ hreach₂ hc₂
      have hsub₃ : ∀ s ∈ (dfs g fuel nb st₂).stk, s ∈ (dfs g fuel nb st₂).visited := by
        intro s hs
        rw [hstk₃] at hs
        exact hvis₃ s (hsub₂ s hs)
      obtain ⟨h₁, h₂, h₃⟩ :=
        ihl (fun x hx => hedges x (List.mem_cons_of_mem nb hx)) (dfs g fuel nb st₂)
          (by rw [hstk₃, hstk]) hsub₃ hcyc₃
      exact ⟨h₁, fun a ha => h₂ a (hvis₃ a ha), h₃⟩

/-- On an acyclic graph, `dfs` restores the stack, grows the visited set,
and leaves the cycle set empty. -/
lemma dfs_acyclic (g : List (Int × List Int)) (hAcyc : ∀ v, ¬ onCycle g v) :
    ∀ fuel node st, node ∉ st.visited → (∀ s ∈ st.stk, s ∈ st.visited) →
      (∀ s ∈ st.stk, Reach g s node) → st.cycles = ∅ →
      (dfs g fuel node st).stk = st.stk ∧
        (∀ a ∈ st.visited, a ∈ (dfs g fuel node st).visited) ∧
        (dfs g fuel node st).cycles = ∅ := by
  intro fuel
  induction fuel with
  | zero =>
    intro node st _ _ _ hcyc
    exact ⟨rfl, fun a ha => ha, hcyc⟩
  | succ fuel ih =>
    intro node st hnode hsub hreach hcyc
    rw [dfs_succ]
    have hSreach : ∀ s ∈ insert node st.stk, Reach g s node := by
      intro s hs
      rcases Finset.mem_insert.mp hs with hs | hs
      · subst hs; exact Relation.ReflTransGen.refl
      · exact hreach s hs
    obtain ⟨h₁, h₂, h₃⟩ :=
      dfs_loop_acyclic g hAcyc fuel ih node (insert node st.stk) hSreach
        (alistGetD g node []) (fun nb h => h)
        ⟨insert node st.visited, insert node st.stk, st.cycles⟩ rfl
        (by
          intro s hs
          rcases Finset.mem_insert.mp hs with hs | hs
          · subst hs; exact Finset.mem_insert_self _ _
          · exact Finset.mem_insert_of_mem (hsub s hs))
        hcyc
    have hnostk : node ∉ st.stk := fun h => hnode (hsub node h)
    refine ⟨?_, ?_, h₃⟩
    · rw [h₁]
      exact Finset.erase_insert hnostk
    · intro a ha
      exact h₂ a (Finset.mem_insert_of_mem ha)

/-- On an acyclic graph `find_cycles` returns the empty set. -/
lemma find_cycles_acyclic (g : List (Int × List Int))
    (hAcyc : ∀ v, ¬ onCycle g v) : find_cycles g = ∅ := by
  unfold find_cycles
  suffices h : ∀ (entries : List (Int × List Int)) (st : DfsState), st.stk = ∅ →
      st.cycles = ∅ →
      (entries.foldl
          (fun st p => if p.1 ∈ st.visited then st else dfs g (dfsFuel g) p.1 st)
          st).cycles = ∅ by
    exact h g ⟨∅, ∅, ∅⟩ rfl rfl
  intro entries
  induction entries with
  | nil => intro st _ hc; exact hc
  | cons p rest ih =>
    intro st hstk hcyc
    simp only [List.foldl_cons]
    by_cases hv : p.1 ∈ st.visited
    · simp only [hv, if_pos, if_true]
      exact ih st hstk hcyc
    · simp only [hv, if_neg, if_false, not_false_eq_true]
      obtain ⟨h₁, _, h₃⟩ :=
        dfs_acyclic g hAcyc (dfsFuel g) p.1 st hv
          (by rw [hstk]; intro s hs; exact absurd hs (Finset.not_mem_empty s))
          (by rw [hstk]; intro s hs; exact absurd hs (Finset.not_mem_empty s))
          hcyc
      exact ih _ (by rw [h₁, hstk]) h₃

/-! ## Concrete graphs for the cycle-detector analysis -/

/-- Chain into a two-cycle: `1 → 2 → 3 → 2`.  Node 1 lies on no cycle but
the DFS stack `{1, 2, 3}` is flagged wholesale at the back edge `3 → 2`. -/
def exG1 : List (Int × List Int) := [(1, [2]), (2, [3]), (3, [2])]

/-- Three-cycle `1 → 2 → 3 → 1` plus chord `1 → 3`.  The chord is explored
first, so the back edge `3 → 1` flags `{1, 3}` and the traversal reaches 2
only via the cross edge `2 → 3`, never flagging 2. -/
def exG2 : List (Int × List Int) := [(1, [3, 2]), (2, [3]), (3, [1])]

/-- Acyclic witness graph `1 → 2`. -/
def exGW : List (Int × List Int) := [(1, [2])]

lemma reach_exG1_from2 : ∀ x, Reach exG1 2 x → x = 2 ∨ x = 3 := by
  intro x h
  induction h with
  | refl => exact Or.inl rfl
  | tail h₁ h₂ ih =>
    rename_i b c
    rcases ih with hb | hb
    · rw [hb] at h₂
      have hn : alistGetD exG1 2 [] = [3] := by decide
      have hc : c ∈ [(3 : Int)] := hn ▸ h₂
      simp at hc
      exact Or.inr hc
    · rw [hb] at h₂
      have hn : alistGetD exG1 3 [] = [2] := by decide
      have hc : c ∈ [(2 : Int)] := hn ▸ h₂
      simp at hc
      exact Or.inl hc

lemma not_onCycle_exG1_1 : ¬ onCycle exG1 1 := by
  rintro ⟨w, he, hr⟩
  have hn : alistGetD exG1 1 [] = [2] := by decide
  have hw : w ∈ [(2 : Int)] := hn ▸ he
  simp at hw
  subst hw
  rcases reach_exG1_from2 1 hr with h | h <;> exact absurd h (by norm_num)

lemma onCycle_exG2_2 : onCycle exG2 2 := by
  refine ⟨3, ?_, ?_⟩
  · have : (3 : Int) ∈ alistGetD exG2 2 [] := by decide
    exact this
  · have e31 : edgeOf exG2 3 1 := by
      have : (1 : Int) ∈ alistGetD exG2 3 [] := by decide
      exact this
    have e12 : edgeOf exG2 1 2 := by
      have : (2 : Int) ∈ alistGetD exG2 1 [] := by decide
      exact this
    exact Relation.ReflTransGen.tail (Relation.ReflTransGen.single e31) e12

lemma reach_exGW_from2 : ∀ x, Reach exGW 2 x → x = 2 := by
  intro x h
  induction h with
  | refl => rfl
  | tail h₁ h₂ ih =>
    rename_i b c
    rw [ih] at h₂
    have hn : alistGetD exGW 2 [] = [] := by decide
    have hc : c ∈ ([] : List Int) := hn ▸ h₂
    simp at hc

lemma exGW_acyclic : ∀ v, ¬ onCycle exGW v := by
  rintro v ⟨w, he, hr⟩
  by_cases hv : v = 1
  · subst hv
    have hn : alistGetD exGW 1 [] = [2] := by decide
    have hw : w ∈ [(2 : Int)] := hn ▸ he
    simp at hw
    subst hw
    have := reach_exGW_from2 1 hr
    norm_num at this
  · have hn : alistGetD exGW v [] = [] := by
      unfold alistGetD exGW
      have : ((1 : Int) = v) = False := by
        simp
        intro h1
        exact hv h1.symm
      simp [List.find?, this]
    have : w ∈ ([] : List Int) := hn ▸ he
    simp at this

deriving instance DecidableEq for Except

/-! ## Concrete payloads -/

/-- Single dated task used to expose the ambient-date dependence. -/
def exDatedPayload : List RawTask :=
  [{ id := none, title := some "t", due_date := DueField.dateVal 5,
     estimated_hours := HoursField.val 2, importance := ImportanceField.val 5,
     dependencies := none }]

/-- A task entry with no `title` attribute and an unparseable due date. -/
def exNoTitleBadDate : List RawTask :=
  [{ id := none, title := none, due_date := DueField.malformed "not-a-date",
     estimated_hours := HoursField.val 2, importance := ImportanceField.val 5,
     dependencies := none }]

/-- A task entry with no `title` attribute and all other fields clean. -/
def exNoTitle : List RawTask :=
  [{ id := none, title := none, due_date := DueField.absent,
     estimated_hours := HoursField.val 2, importance := ImportanceField.val 5,
     dependencies := none }]

/-! ## Claim C4 -/

/-- C4: `compute_urgency` returns urgency 1/10 with no days-left when there
is no due date; urgency 1 when `days_left = due - today` is negative; and
otherwise `max 0 (1 - min(days_left, 30)/30)`, which is the linear decay
`1 - days_left/30` on `[0, 30]` and exactly 0 from 30 days onward. -/
theorem c4_compute_urgency (due : Option Int) (today : Int) :
    (due = none → compute_urgency due today = (1/10, none)) ∧
      (∀ d, due = some d →
        (d - today < 0 → compute_urgency due today = (1, some (d - today))) ∧
          (0 ≤ d - today →
            compute_urgency due today
              = (max 0 (1 - ((min (d - today) 30 : Int) : Rat) / 30),
                 some (d - today))) ∧
          (0 ≤ d - today → d - today ≤ 30 →
            (compute_urgency due today).1 = 1 - ((d - today : Int) : Rat) / 30) ∧
          (30 ≤ d - today → (compute_urgency due today).1 = 0)) := by
  constructor
  · intro h
    subst h
    rfl
  · intro d hd
    subst hd
    refine ⟨?_, ?_, ?_, ?_⟩
    · intro hneg
      simp [compute_urgency, hneg]
    · intro hpos
      simp [compute_urgency, MAX_URGENCY_DAYS, not_lt.mpr hpos]
    · intro hpos hle
      have hmin : min (d - today) 30 = d - today := min_eq_left hle
      have hcast : ((d - today : Int) : Rat) ≤ 30 := by exact_mod_cast hle
      have hmax : max 0 (1 - ((d - today : Int) : Rat) / 30)
          = 1 - ((d - today : Int) : Rat) / 30 := by
        apply max_eq_right
        have : ((d - today : Int) : Rat) / 30 ≤ 1 := by
          rw [div_le_one (by norm_num)]
          exact hcast
        linarith
      simp [compute_urgency, MAX_URGENCY_DAYS, not_lt.mpr hpos, hmin, hmax]
      rw [div_le_one (by norm_num)]
      push_cast at hcast ⊢
      linarith
    · intro h30
      have hpos : ¬ (d - today < 0) := by omega
      have hmin : min (d - today) 30 = 30 := min_eq_right h30
      simp [compute_urgency, MAX_URGENCY_DAYS, hpos, hmin]

/-- C4 witness: the theorem evaluated in all four regimes. -/
theorem c4_witness :
    compute_urgency none 0 = (1/10, none) ∧
      compute_urgency (some 3) 10 = (1, some (3 - 10)) ∧
      (compute_urgency (some 10) 0).1 = 1 - (((10 : Int) - 0 : Int) : Rat) / 30 ∧
      (compute_urgency (some 45) 0).1 = 0 :=
  ⟨(c4_compute_urgency none 0).1 rfl,
   ((c4_compute_urgency (some 3) 10).2 3 rfl).1 (by decide),
   ((c4_compute_urgency (some 10) 0).2 10 rfl).2.2.1 (by decide) (by decide),
   ((c4_compute_urgency (some 45) 0).2 45 rfl).2.2.2 (by decide)⟩

/-! ## Claim C7 -/

/-- C7: for every payload, every strategy name outside the four recognized
choices, and every ambient date, `score_tasks` fails with the
invalid-strategy error before parsing or scoring anything: the result is
exactly the bare error. -/
theorem c7_invalid_strategy (payload : List RawTask) (s : String) (today : Int)
    (h : s ∉ STRATEGY_CHOICES) :
    score_tasks payload s today = Except.error (ScoreError.invalidStrategy s) := by
  unfold score_tasks
  simp [h]

/-- C7 witness: the strategy name "bogus" on a well-formed payload. -/
theorem c7_witness :
    "bogus" ∉ STRATEGY_CHOICES ∧
      score_tasks exDatedPayload "bogus" 0
        = Except.error (ScoreError.invalidStrategy "bogus") :=
  ⟨by decide, c7_invalid_strategy exDatedPayload "bogus" 0 (by decide)⟩

/-! ## Claim C2 -/

/-- C2 counterexample: `score_tasks` takes no evaluation-date argument; the
evaluation date is the ambient `date.today()` value (the third parameter of
this embedding).  Two invocations whose actual Python arguments
(`tasks_payload`, `strategy`) are identical produce different
AnalysisResults when the ambient date differs, so the engine reads ambient
state that is not an argument of its entry point. -/
theorem c2_counterexample :
    score_tasks exDatedPayload "deadline_driven" 0
      ≠ score_tasks exDatedPayload "deadline_driven" 40 := by
  with_unfolding_all decide

/-- C2 (amended): the engine entry point accepts only the tasks payload and
the strategy name, reading the evaluation date from the ambient clock (only
`compute_urgency` has an explicit date override).  Holding the ambient date
fixed, the engine is deterministic: invocations with identical payload,
strategy and ambient date yield identical AnalysisResults — the embedding
is a pure function of exactly these three values. -/
theorem c2_deterministic (p₁ p₂ : List RawTask) (s₁ s₂ : String) (d₁ d₂ : Int)
    (hp : p₁ = p₂) (hs : s₁ = s₂) (hd : d₁ = d₂) :
    score_tasks p₁ s₁ d₁ = score_tasks p₂ s₂ d₂ := by
  subst hp
  subst hs
  subst hd
  rfl

/-- C2 witness: determinism at a concrete payload, strategy and date. -/
theorem c2_witness :
    score_tasks exDatedPayload "deadline_driven" 0
      = score_tasks exDatedPayload "deadline_driven" 0 :=
  c2_deterministic exDatedPayload exDatedPayload "deadline_driven"
    "deadline_driven" 0 0 rfl rfl rfl

/-! ## Claim C6 -/

lemma parseGo_title_missing (idx : Int) (l : List RawTask)
    (h : ∃ r ∈ l, r.title = none) :
    ∃ e, parseTasksGo idx l = Except.error e := by
  induction l generalizing idx with
  | nil => simp at h
  | cons r rest ih =>
    by_cases hr : r.title = none
    · cases hd : coerceDate r.due_date with
      | error e =>
        exact ⟨e, by simp [parseTasksGo, parseOne, hd]⟩
      | ok due =>
        exact ⟨ParseError.missingField "title", by simp [parseTasksGo, parseOne, hd, hr]⟩
    · have hrest : ∃ r₁ ∈ rest, r₁.title = none := by
        rcases h with ⟨r₁, hr₁, ht⟩
        rcases List.mem_cons.mp hr₁ with hr₁ | hr₁
        · exact absurd (hr₁ ▸ ht) hr
        · exact ⟨r₁, hr₁, ht⟩
      cases hp : parseOne idx r with
      | error e => exact ⟨e, by simp [parseTasksGo, hp]⟩
      | ok t =>
        obtain ⟨e, he⟩ := ih (idx + 1) hrest
        exact ⟨e, by simp [parseTasksGo, hp, he]⟩

/-- C6 (amended): a batch containing an entry with no `title` attribute
always aborts parsing as a whole — no partial task list and no scored
result is produced — but the error is a MissingField error only when no
earlier conversion fails first: per entry the due-date coercion runs before
the title lookup, and earlier entries are parsed first, so a type-conversion
error can preempt the missing-title error. -/
theorem c6_title_missing_aborts (payload : List RawTask) (s : String) (d : Int)
    (h : ∃ r ∈ payload, r.title = none) :
    (∃ e, parse_tasks payload = Except.error e) ∧
      (∃ e, score_tasks payload s d = Except.error e) := by
  have hp : ∃ e, parse_tasks payload = Except.error e :=
    parseGo_title_missing 1 payload h
  refine ⟨hp, ?_⟩
  by_cases hs : s ∈ STRATEGY_CHOICES
  · obtain ⟨e, he⟩ := hp
    refine ⟨ScoreError.parse e, ?_⟩
    unfold score_tasks
    simp [hs, he]
  · exact ⟨ScoreError.invalidStrategy s, by unfold score_tasks; simp [hs]⟩

/-- C6 witness: a batch whose only entry lacks `title`; parsing and scoring
both abort. -/
theorem c6_witness :
    (∃ r ∈ exNoTitle, r.title = none) ∧
      ((∃ e, parse_tasks exNoTitle = Except.error e) ∧
        (∃ e, score_tasks exNoTitle "smart_balance" 0 = Except.error e)) :=
  ⟨by decide, c6_title_missing_aborts exNoTitle "smart_balance" 0 (by decide)⟩

/-- C6 counterexample: a batch whose only entry has no `title` attribute
and an unparseable due date fails with a TypeConversion error on
`due_date`, not with a MissingField error: the due-date coercion runs
before the title lookup. -/
theorem c6_counterexample :
    (∃ r ∈ exNoTitleBadDate, r.title = none) ∧
      parse_tasks exNoTitleBadDate
        = Except.error (ParseError.typeConversion "due_date") := by
  constructor
  · decide
  · decide

/-! ## Claim C1 -/

/-- C1 counterexample: `find_cycles` is not exactly the set of cycle
participants, in either direction.  On `exG1` (`1 → 2 → 3 → 2`) it returns
`{1, 2, 3}` although node 1 is not reachable from itself, because the whole
DFS stack is flagged at a back edge.  On `exG2` (cycle `1 → 2 → 3 → 1` with
chord `1 → 3`) it returns `{1, 3}` and omits node 2, which lies on the
3-cycle but is reached only after its cycle neighbours are already off the
recursion stack. -/
theorem c1_counterexample :
    ((1 : Int) ∈ find_cycles exG1 ∧ ¬ onCycle exG1 1) ∧
      (onCycle exG2 2 ∧ (2 : Int) ∉ find_cycles exG2) :=
  ⟨⟨by with_unfolding_all decide, not_onCycle_exG1_1⟩,
   ⟨onCycle_exG2_2, by with_unfolding_all decide⟩⟩

/-- C1 (amended): `find_cycles` flags the whole recursion stack at each
back edge, so on cyclic graphs its result can both include ids lying on no
cycle and omit ids lying on a cycle; what does hold is that it flags
nothing spurious on cycle-free graphs: when no node is reachable from
itself through the dependency-enablement edges, `find_cycles` returns the
empty set. -/
theorem c1_acyclic_empty (g : List (Int × List Int))
    (h : ∀ v, ¬ onCycle g v) : find_cycles g = ∅ :=
  find_cycles_acyclic g h

/-- C1 witness: the acyclic graph `1 → 2` yields the empty cycle set. -/
theorem c1_witness : find_cycles exGW = ∅ :=
  c1_acyclic_empty exGW exGW_acyclic

/-! ## Claim C3 -/

lemma pyround_zero (n : Nat) : pyround 0 n = 0 := by
  unfold pyround
  rw [zero_mul, round_zero]
  simp

lemma pyround_fifth_bound (b : Rat) :
    |pyround (b * (1/5) * 100) 2 - (1/5) * pyround (b * 100) 2| ≤ 3/500 := by
  have h1 := abs_pyround_sub (b * (1/5) * 100) 2
  have h2 := abs_pyround_sub (b * 100) 2
  have e1 : (1 : Rat) / (2 * (10 : Rat) ^ 2) = 1/200 := by norm_num
  rw [e1] at h1 h2
  have key : pyround (b * (1/5) * 100) 2 - (1/5) * pyround (b * 100) 2
      = (pyround (b * (1/5) * 100) 2 - b * (1/5) * 100)
        + (-((1/5) * (pyround (b * 100) 2 - b * 100))) := by ring
  rw [key]
  have htri := abs_add (pyround (b * (1/5) * 100) 2 - b * (1/5) * 100)
    (-((1/5) * (pyround (b * 100) 2 - b * 100)))
  have hneg : |(-((1/5) * (pyround (b * 100) 2 - b * 100)))|
      = (1/5) * |pyround (b * 100) 2 - b * 100| := by
    rw [abs_neg, abs_mul]
    norm_num
  rw [hneg] at htri
  have : (1 : Rat)/5 * |pyround (b * 100) 2 - b * 100| ≤ (1/5) * (1/200) := by
    apply mul_le_mul_of_nonneg_left h2
    norm_num
  calc |pyround (b * (1/5) * 100) 2 - b * (1/5) * 100
        + (-((1/5) * (pyround (b * 100) 2 - b * 100)))|
      ≤ |pyround (b * (1/5) * 100) 2 - b * (1/5) * 100|
        + (1/5) * |pyround (b * 100) 2 - b * 100| := htri
    _ ≤ 1/200 + (1/5) * (1/200) := by linarith
    _ = 3/500 := by norm_num

/-- C3: in the per-task loop body of `score_tasks`, a task whose id is in
the cycle-node set has its base strategy score multiplied by 1/5 (the float
0.2) before the `round(base * 100, 2)` scaling, so its final score is the
rounding of exactly 20% of the unrounded scaled base score, hence within
3/500 of one fifth of the unpenalized final score; a task not in the
cycle-node set is scored with no penalty. -/
theorem c3_cycle_penalty (strategy : String) (dependents : List (Int × Int))
    (max_dep : Int) (cycle_nodes : Finset Int) (today : Int) (task : TaskData) :
    (task.id ∈ cycle_nodes →
      (scoreOne strategy dependents max_dep cycle_nodes today task).score
          = pyround
              ((strategyFun strategy
                  (scoreOne strategy dependents max_dep cycle_nodes today task).components)
                * (1/5) * 100) 2 ∧
        |(scoreOne strategy dependents max_dep cycle_nodes today task).score
            - (1/5) * pyround
                ((strategyFun strategy
                    (scoreOne strategy dependents max_dep cycle_nodes today task).components)
                  * 100) 2|
          ≤ 3/500) ∧
      (task.id ∉ cycle_nodes →
        (scoreOne strategy dependents max_dep cycle_nodes today task).score
          = pyround
              ((strategyFun strategy
                  (scoreOne strategy dependents max_dep cycle_nodes today task).components)
                * 100) 2) := by
  constructor
  · intro h
    constructor
    · simp [scoreOne, h]
    · have hs : (scoreOne strategy dependents max_dep cycle_nodes today task).score
          = pyround
              ((strategyFun strategy
                  (scoreOne strategy dependents max_dep cycle_nodes today task).components)
                * (1/5) * 100) 2 := by
        simp [scoreOne, h]
      rw [hs]
      exact pyround_fifth_bound _
  · intro h
    simp [scoreOne, h]

/-- A generic task used for per-task witnesses. -/
def exTask : TaskData :=
  { id := 1, title := "A", due_date := none, estimated_hours := 2,
    importance := 5, dependencies := [] }

/-- C3 witness: the penalty applies when the id is flagged and not
otherwise. -/
theorem c3_witness :
    (scoreOne "smart_balance" [] 0 {1} 0 exTask).score
        = pyround
            ((strategyFun "smart_balance"
                (scoreOne "smart_balance" [] 0 {1} 0 exTask).components) * (1/5) * 100) 2 ∧
      (scoreOne "smart_balance" [] 0 (∅ : Finset Int) 0 exTask).score
        = pyround
            ((strategyFun "smart_balance"
                (scoreOne "smart_balance" [] 0 (∅ : Finset Int) 0 exTask).components)
              * 100) 2 :=
  ⟨((c3_cycle_penalty "smart_balance" [] 0 {1} 0 exTask).1
      (by with_unfolding_all decide)).1,
   (c3_cycle_penalty "smart_balance" [] 0 (∅ : Finset Int) 0 exTask).2
      (by with_unfolding_all decide)⟩

/-! ## Claim C8 -/

/-- The `max_dep` local of `score_tasks`:
`max(dependents.values()) if dependents else 1`. -/
def maxDepOf (parsed : List TaskData) : Int :=
  if (build_dependency_graph parsed).2.isEmpty then 1
  else listMax (((build_dependency_graph parsed).2).map (fun p => p.2))

/-- The loop body of `score_tasks` with the pipeline quantities filled in. -/
def scoreOneOf (parsed : List TaskData) (strategy : String) (today : Int)
    (task : TaskData) : ScoredTask :=
  scoreOne strategy (build_dependency_graph parsed).2 (maxDepOf parsed)
    (find_cycles (build_dependency_graph parsed).1) today task

lemma scoredList_eq (parsed : List TaskData) (strategy : String) (today : Int) :
    scoredList parsed strategy today = parsed.map (scoreOneOf parsed strategy today) := rfl

/-- C8: the dep-score computation never divides by a zero batch maximum.
For a task of the batch, the stored component is the 4-digit rounding of
`num_dependents / max_dep` guarded by `max_dep ≠ 0`; when the batch-wide
maximum dependent count is zero the component is exactly 0; and the stored
component always lies in `[0, 1]`. -/
theorem c8_dep_score (parsed : List TaskData) (strategy : String) (today : Int)
    (task : TaskData) (ht : task ∈ parsed) :
    scoreOneOf parsed strategy today task ∈ scoredList parsed strategy today ∧
      (scoreOneOf parsed strategy today task).components.num_dependents
        = alistGetD (build_dependency_graph parsed).2 task.id 0 ∧
      (scoreOneOf parsed strategy today task).components.dep_score
        = pyround
            (if maxDepOf parsed ≠ 0 then
              ((alistGetD (build_dependency_graph parsed).2 task.id 0 : Int) : Rat)
                / (maxDepOf parsed : Rat)
             else 0) 4 ∧
      (maxDepOf parsed = 0 →
        (scoreOneOf parsed strategy today task).components.dep_score = 0) ∧
      0 ≤ (scoreOneOf parsed strategy today task).components.dep_score ∧
      (scoreOneOf parsed strategy today task).components.dep_score ≤ 1 := by
  have hvals : ∀ q ∈ (build_dependency_graph parsed).2, 0 ≤ q.2 :=
    counts_nonneg parsed
  have hkey := counts_key_mem ht
  have hne : (build_dependency_graph parsed).2 ≠ [] := by
    intro h0
    rw [h0] at hkey
    simp at hkey
  have hnum0 : 0 ≤ alistGetD (build_dependency_graph parsed).2 task.id 0 :=
    alistGetD_nonneg hvals task.id
  have hnumle : alistGetD (build_dependency_graph parsed).2 task.id 0
      ≤ listMax (((build_dependency_graph parsed).2).map (fun p => p.2)) :=
    alistGetD_le_listMax hvals hne task.id
  have hm : maxDepOf parsed
      = listMax (((build_dependency_graph parsed).2).map (fun p => p.2)) := by
    unfold maxDepOf
    rw [if_neg]
    simp [hne]
  have hdep : (scoreOneOf parsed strategy today task).components.dep_score
      = pyround
          (if maxDepOf parsed ≠ 0 then
            ((alistGetD (build_dependency_graph parsed).2 task.id 0 : Int) : Rat)
              / (maxDepOf parsed : Rat)
           else 0) 4 := rfl
  refine ⟨by rw [scoredList_eq]; exact List.mem_map_of_mem _ ht, rfl, hdep, ?_, ?_, ?_⟩
  · intro h0
    rw [hdep, h0]
    simp [pyround_zero]
  · rw [hdep]
    by_cases h0 : maxDepOf parsed = 0
    · simp [h0, pyround_zero]
    · rw [if_pos h0]
      apply pyround_nonneg
      apply div_nonneg
      · exact_mod_cast hnum0
      · have : (0 : Int) ≤ maxDepOf parsed := by
          rw [hm]
          exact le_trans hnum0 hnumle
        exact_mod_cast this
  · rw [hdep]
    by_cases h0 : maxDepOf parsed = 0
    · simp [h0, pyround_zero]
    · rw [if_pos h0]
      apply pyround_le_one
      have hmpos : (0 : Int) < maxDepOf parsed := by
        rcases lt_or_eq_of_le (le_trans hnum0 (hm ▸ hnumle)) with h | h
        · exact h
        · exact absurd h.symm h0
      rw [div_le_one (by exact_mod_cast hmpos)]
      have : alistGetD (build_dependency_graph parsed).2 task.id 0 ≤ maxDepOf parsed :=
        hm ▸ hnumle
      exact_mod_cast this

/-- Two tasks, the second depending on the first, for the C8 witness. -/
def exParsed : List TaskData :=
  [{ id := 1, title := "A", due_date := none, estimated_hours := 2,
     importance := 5, dependencies := [] },
   { id := 2, title := "B", due_date := none, estimated_hours := 2,
     importance := 5, dependencies := [1] }]

/-- C8 witness: the theorem evaluated on a two-task batch with one
dependency edge. -/
theorem c8_witness :
    scoreOneOf exParsed "smart_balance" 0 (exParsed.get ⟨0, by decide⟩)
        ∈ scoredList exParsed "smart_balance" 0 ∧
      (scoreOneOf exParsed "smart_balance" 0
          (exParsed.get ⟨0, by decide⟩)).components.num_dependents
        = alistGetD (build_dependency_graph exParsed).2
            (exParsed.get ⟨0, by decide⟩).id 0 ∧
      (scoreOneOf exParsed "smart_balance" 0
          (exParsed.get ⟨0, by decide⟩)).components.dep_score
        = pyround
            (if maxDepOf exParsed ≠ 0 then
              ((alistGetD (build_dependency_graph exParsed).2
                  (exParsed.get ⟨0, by decide⟩).id 0 : Int) : Rat)
                / (maxDepOf exParsed : Rat)
             else 0) 4 ∧
      (maxDepOf exParsed = 0 →
        (scoreOneOf exParsed "smart_balance" 0
            (exParsed.get ⟨0, by decide⟩)).components.dep_score = 0) ∧
      0 ≤ (scoreOneOf exParsed "smart_balance" 0
            (exParsed.get ⟨0, by decide⟩)).components.dep_score ∧
      (scoreOneOf exParsed "smart_balance" 0
          (exParsed.get ⟨0, by decide⟩)).components.dep_score ≤ 1 :=
  c8_dep_score exParsed "smart_balance" 0 (exParsed.get ⟨0, by decide⟩)
    (exParsed.get_mem 0 (by decide))

/-! ## Claims C5, C9, C10 -/

lemma parseGo_length (idx : Int) (l : List RawTask) :
    ∀ ts, parseTasksGo idx l = Except.ok ts → ts.length = l.length := by
  induction l generalizing idx with
  | nil =>
    intro ts h
    simp only [parseTasksGo] at h
    cases h
    rfl
  | cons r rest ih =>
    intro ts h
    unfold parseTasksGo at h
    cases hp : parseOne idx r with
    | error e => rw [hp] at h; exact absurd h (by simp)
    | ok t =>
      rw [hp] at h
      cases hr : parseTasksGo (idx + 1) rest with
      | error e => rw [hr] at h; exact absurd h (by simp)
      | ok ts₁ =>
        rw [hr] at h
        cases h
        simp [ih (idx + 1) ts₁ hr]

lemma assignRanks_pairwise (i : Nat) (l : List ScoredTask)
    (h : l.Pairwise (fun a b => b.score ≤ a.score)) :
    (assignRanks i l).Pairwise (fun a b => b.score ≤ a.score) := by
  have hmap := assignRanks_map_of (fun t => t.score) (fun t j => rfl) i l
  have h1 : ((assignRanks i l).map (fun t => t.score)).Pairwise
      (fun a b => b ≤ a) := by
    rw [hmap]
    exact List.pairwise_map.mpr h
  exact List.pairwise_map.mp h1

lemma map_stripRank_id (l : List ScoredTask) (h : ∀ x ∈ l, x.rank = 0) :
    l.map stripRank = l := by
  induction l with
  | nil => rfl
  | cons x xs ih =>
    have hx : stripRank x = x := by
      have h0 := h x (List.mem_cons_self x xs)
      unfold stripRank
      cases x
      simp_all
    simp only [List.map_cons, hx]
    rw [ih (fun y hy => h y (List.mem_cons_of_mem x hy))]

lemma scoredList_rank_zero (parsed : List TaskData) (s : String) (d : Int) :
    ∀ x ∈ scoredList parsed s d, x.rank = 0 := by
  rw [scoredList_eq]
  intro x hx
  rcases List.mem_map.mp hx with ⟨task, _, rfl⟩
  rfl

/-- C5: the ranked output of a successful `score_tasks` run is sorted in
descending final-score order; its ranks are exactly the contiguous sequence
`1..N` in order; and the sort is stable: restricted to any score value,
the output (ranks erased) is exactly the pre-sort list in original input
order. -/
theorem c5_sort_rank (payload : List RawTask) (s : String) (d : Int)
    (r : AnalysisResult) (h : score_tasks payload s d = Except.ok r) :
    r.tasks.Pairwise (fun a b => b.score ≤ a.score) ∧
      r.tasks.map (fun t => t.rank) = List.range' 1 r.tasks.length ∧
      ∃ parsed, parse_tasks payload = Except.ok parsed ∧
        ∀ v : Rat, (r.tasks.filter (fun e => e.score = v)).map stripRank
          = (scoredList parsed s d).filter (fun e => e.score = v) := by
  obtain ⟨hs, parsed, hp, hr⟩ := score_tasks_ok h
  subst hr
  dsimp only
  refine ⟨assignRanks_pairwise _ _ (sortDesc_pairwise _), ?_, parsed, hp, ?_⟩
  · rw [assignRanks_map_rank, assignRanks_length]
  · intro v
    rw [filter_map_of stripRank (fun e => decide (e.score = v)) (fun a => rfl),
      assignRanks_map_stripRank]
    rw [map_stripRank_id]
    · exact sortDesc_filter v _
    · intro x hx
      exact scoredList_rank_zero parsed s d x ((sortDesc_perm _).mem_iff.mp hx)

/-- C9: the summary of a successful run reports the batch size as task
count, the two-decimal rounding of the mean of all final scores (0 for an
empty batch), and the titles of the first three ranked tasks in rank
order. -/
theorem c9_summary (payload : List RawTask) (s : String) (d : Int)
    (r : AnalysisResult) (h : score_tasks payload s d = Except.ok r) :
    r.summary.total_tasks = r.tasks.length ∧
      r.tasks.length = payload.length ∧
      r.summary.average_score
        = (if r.tasks.isEmpty then 0
           else pyround (((r.tasks.map (fun t => t.score)).sum)
              / (r.tasks.length : Rat)) 2) ∧
      r.summary.top_titles = (r.tasks.take 3).map (fun t => t.title) := by
  obtain ⟨hs, parsed, hp, hr⟩ := score_tasks_ok h
  subst hr
  refine ⟨rfl, ?_, rfl, rfl⟩
  dsimp only
  rw [assignRanks_length, (sortDesc_perm _).length_eq, scoredList_eq,
    List.length_map]
  exact parseGo_length 1 payload parsed hp

/-- The task-record fields of a scored entry. -/
def taskProj (e : ScoredTask) : Int × String × Option Int × Rat × Int × List Int :=
  (e.id, e.title, e.due_date, e.estimated_hours, e.importance, e.dependencies)

/-- The fields of a parsed task record, in the same shape. -/
def dataProj (t : TaskData) : Int × String × Option Int × Rat × Int × List Int :=
  (t.id, t.title, t.due_date, t.estimated_hours, t.importance, t.dependencies)

/-- C10: a successful run emits exactly one scored entry per parsed task —
none dropped, duplicated or invented — and every entry carries its task's
id, title, due date, estimated hours, importance and dependency list
unchanged; scoring only adds the score, explanation, cycle flag, components
and rank. -/
theorem c10_preservation (payload : List RawTask) (s : String) (d : Int)
    (r : AnalysisResult) (h : score_tasks payload s d = Except.ok r) :
    ∃ parsed, parse_tasks payload = Except.ok parsed ∧
      r.tasks.length = parsed.length ∧
      List.Perm (r.tasks.map taskProj) (parsed.map dataProj) := by
  obtain ⟨hs, parsed, hp, hr⟩ := score_tasks_ok h
  subst hr
  refine ⟨parsed, hp, ?_, ?_⟩
  · dsimp only
    rw [assignRanks_length, (sortDesc_perm _).length_eq, scoredList_eq,
      List.length_map]
  · dsimp only
    rw [assignRanks_map_of taskProj (fun t i => rfl)]
    have hperm := (sortDesc_perm (scoredList parsed s d)).map taskProj
    apply hperm.trans
    rw [scoredList_eq, List.map_map]
    exact List.Perm.refl _

/-- A payload of one clean task, for end-to-end witnesses. -/
def exOkPayload : List RawTask :=
  [{ id := none, title := some "A", due_date := DueField.absent,
     estimated_hours := HoursField.val 0, importance := ImportanceField.val 10,
     dependencies := none }]

/-- The `AnalysisResult` that `score_tasks exOkPayload "high_impact" 0`
evaluates to. -/
def exOkResult : AnalysisResult :=
  { strategy := "high_impact",
    tasks :=
      [{ id := 1, title := "A", due_date := none, estimated_hours := 0,
         importance := 10, dependencies := [], score := 72,
         explanation := "No deadline (low urgency); Importance 10/10; Quick win (0h)",
         cycle_issue := false,
         components :=
           { urgency := 1/10, importance_norm := 1, quick_win := 1,
             dep_score := 0, num_dependents := 0, days_left := none },
         rank := 1 }],
    summary :=
      { strategy := "high_impact", total_tasks := 1, average_score := 72,
        top_titles := ["A"] } }

/-- C5 witness: the sortedness, rank and stability conclusions on a
concrete successful run. -/
theorem c5_witness :
    exOkResult.tasks.Pairwise (fun a b => b.score ≤ a.score) ∧
      exOkResult.tasks.map (fun t => t.rank)
        = List.range' 1 exOkResult.tasks.length ∧
      ∃ parsed, parse_tasks exOkPayload = Except.ok parsed ∧
        ∀ v : Rat, (exOkResult.tasks.filter (fun e => e.score = v)).map stripRank
          = (scoredList parsed "high_impact" 0).filter (fun e => e.score = v) :=
  c5_sort_rank exOkPayload "high_impact" 0 exOkResult (by with_unfolding_all decide)

/-- C9 witness: the summary conclusions on a concrete successful run. -/
theorem c9_witness :
    exOkResult.summary.total_tasks = exOkResult.tasks.length ∧
      exOkResult.tasks.length = exOkPayload.length ∧
      exOkResult.summary.average_score
        = (if exOkResult.tasks.isEmpty then 0
           else pyround (((exOkResult.tasks.map (fun t => t.score)).sum)
              / (exOkResult.tasks.length : Rat)) 2) ∧
      exOkResult.summary.top_titles
        = (exOkResult.tasks.take 3).map (fun t => t.title) :=
  c9_summary exOkPayload "high_impact" 0 exOkResult (by with_unfolding_all decide)

/-- C10 witness: field preservation on a concrete successful run. -/
theorem c10_witness :
    ∃ parsed, parse_tasks exOkPayload = Except.ok parsed ∧
      exOkResult.tasks.length = parsed.length ∧
      List.Perm (exOkResult.tasks.map taskProj) (parsed.map dataProj) :=
  c10_preservation exOkPayload "high_impact" 0 exOkResult (by with_unfolding_all decide)
